import Mathlib

/-!
Verification development for the getGSA document pipeline.

This file shallowly embeds the core algorithms of the repository:
the PII redaction engine (src/services/redaction.ts), the rule corpus
and lexical retriever (the SimpleVectorStore), the compliance checklist
evaluator (generateChecklist in the aiService), and the analysis
orchestrator (src/routes/analyze.ts).  JavaScript strings are modelled
as lists of characters, JavaScript numbers used by the evaluator as
exact rationals together with a NaN marker, fallible steps as Except,
and the stateful global regular expressions of containsPII as explicit
state passing.  Theorems at the end of the file settle the claims
C1 - C9 about these components.
-/

set_option maxRecDepth 10000

/-! ## Small JavaScript-flavoured string utilities -/

/-- ASCII lower-casing, the effect of String.prototype.toLowerCase on
the ASCII corpus texts used here. -/
def jsToLowerChar (c : Char) : Char :=
  if 'A' ≤ c ∧ c ≤ 'Z' then Char.ofNat (c.toNat + 32) else c

def jsToLower (s : List Char) : List Char := s.map jsToLowerChar

/-- The whitespace class of JavaScript regular expressions (the members
that can occur in the texts handled here). -/
def isJsWs (c : Char) : Bool :=
  c = ' ' || c = '\t' || c = '\n' || c = '\r' || c = '\x0b' || c = '\x0c' ||
    c = Char.ofNat 160

/-- Splitting on runs of whitespace, String.prototype.split(/\s+/):
a leading or trailing separator run contributes an empty field. -/
def splitWsGo : Nat → List Char → List Char → List (List Char)
  | 0, acc, _ => [acc.reverse]
  | _ + 1, acc, [] => [acc.reverse]
  | f + 1, acc, c :: cs =>
    if isJsWs c then acc.reverse :: splitWsGo f [] (List.dropWhile isJsWs cs)
    else splitWsGo f (c :: acc) cs

def jsSplitWs (s : List Char) : List (List Char) :=
  splitWsGo (s.length + 1) [] s

/-- Stable insertion used by `stableSortBy`: x is placed after every
element y with `bef y x` (y weakly precedes x), so elements comparing
equal keep their original relative order, as the ECMAScript
Array.prototype.sort contract guarantees. -/
def insertStable (bef : α → α → Bool) (x : α) : List α → List α
  | [] => [x]
  | y :: ys => if bef y x then y :: insertStable bef x ys else x :: y :: ys

/-- Stable comparison sort modelling Array.prototype.sort with a
comparator; `bef a b` means the comparator does not order b before a. -/
def stableSortBy (bef : α → α → Bool) (l : List α) : List α :=
  l.foldl (fun acc x => insertStable bef x acc) []

/-! ## SHA-256 (crypto.createHash and hex digest)

The hash used for the redaction audit trail.  Constants are obtained,
as in the FIPS 180-4 definition, from the fractional parts of the
square and cube roots of the first 64 primes. -/

def pow32 : Nat := 4294967296

def rotr32 (x n : Nat) : Nat :=
  ((x >>> n) ||| (x <<< (32 - n))) % pow32

/-- Integer cube root by binary search (fuel-bounded). -/
def icbrtAux (n : Nat) : Nat → Nat → Nat → Nat
  | 0, lo, _ => lo
  | f + 1, lo, hi =>
    if hi ≤ lo + 1 then lo
    else
      let mid := (lo + hi) / 2
      if mid * mid * mid ≤ n then icbrtAux n f mid hi else icbrtAux n f lo mid

def icbrt (n : Nat) : Nat := icbrtAux n 200 0 (n + 1)

/-- Integer square root by binary search (fuel-bounded). -/
def isqrtAux (n : Nat) : Nat → Nat → Nat → Nat
  | 0, lo, _ => lo
  | f + 1, lo, hi =>
    if hi ≤ lo + 1 then lo
    else
      let mid := (lo + hi) / 2
      if mid * mid ≤ n then isqrtAux n f mid hi else isqrtAux n f lo mid

def isqrt (n : Nat) : Nat := isqrtAux n 200 0 (n + 1)

def first64Primes : List Nat :=
  [2, 3, 5, 7, 11, 13, 17, 19, 23, 29, 31, 37, 41, 43, 47, 53,
   59, 61, 67, 71, 73, 79, 83, 89, 97, 101, 103, 107, 109, 113, 127, 131,
   137, 139, 149, 151, 157, 163, 167, 173, 179, 181, 191, 193, 197, 199, 211, 223,
   227, 229, 233, 239, 241, 251, 257, 263, 269, 271, 277, 281, 283, 293, 307, 311]

/-- Round constants: first 32 bits of the fractional parts of the cube
roots of the first 64 primes. -/
def sha256K : List Nat :=
  first64Primes.map (fun p => icbrt (p * (2 ^ 96)) % pow32)

/-- Initial hash value: fractional parts of the square roots of the
first 8 primes. -/
def sha256H0 : List Nat :=
  (first64Primes.take 8).map (fun p => isqrt (p * (2 ^ 64)) % pow32)

def sigmaBig0 (x : Nat) : Nat := rotr32 x 2 ^^^ rotr32 x 13 ^^^ rotr32 x 22
def sigmaBig1 (x : Nat) : Nat := rotr32 x 6 ^^^ rotr32 x 11 ^^^ rotr32 x 25
def sigmaSmall0 (x : Nat) : Nat := rotr32 x 7 ^^^ rotr32 x 18 ^^^ (x >>> 3)
def sigmaSmall1 (x : Nat) : Nat := rotr32 x 17 ^^^ rotr32 x 19 ^^^ (x >>> 10)

/-- Extend 16 message words to the 64-entry message schedule. -/
def sha256Schedule (ws : List Nat) : List Nat :=
  (List.range 48).foldl
    (fun w _ =>
      let n := w.length
      let x := (sigmaSmall1 (w.getD (n - 2) 0) + w.getD (n - 7) 0 +
                sigmaSmall0 (w.getD (n - 15) 0) + w.getD (n - 16) 0) % pow32
      w ++ [x])
    ws

/-- One round of the compression function; the state is [a,b,c,d,e,f,g,h]. -/
def sha256Round (st : List Nat) (kw : Nat × Nat) : List Nat :=
  match st with
  | [a, b, c, d, e, f, g, h] =>
    let t1 := (h + sigmaBig1 e + ((e &&& f) ^^^ ((pow32 - 1 - e) &&& g)) +
               kw.1 + kw.2) % pow32
    let t2 := (sigmaBig0 a + ((a &&& b) ^^^ (a &&& c) ^^^ (b &&& c))) % pow32
    [(t1 + t2) % pow32, a, b, c, (d + t1) % pow32, e, f, g]
  | other => other

def sha256Block (h : List Nat) (block : List Nat) : List Nat :=
  let w := sha256Schedule block
  let st := (sha256K.zip w).foldl sha256Round h
  (h.zip st).map (fun p => (p.1 + p.2) % pow32)

/-- UTF-8 encoding of a character (Node hashes the UTF-8 bytes of the
string). -/
def utf8Bytes (c : Char) : List Nat :=
  let n := c.toNat
  if n < 0x80 then [n]
  else if n < 0x800 then [0xC0 ||| (n >>> 6), 0x80 ||| (n &&& 0x3F)]
  else if n < 0x10000 then
    [0xE0 ||| (n >>> 12), 0x80 ||| ((n >>> 6) &&& 0x3F), 0x80 ||| (n &&& 0x3F)]
  else
    [0xF0 ||| (n >>> 18), 0x80 ||| ((n >>> 12) &&& 0x3F),
     0x80 ||| ((n >>> 6) &&& 0x3F), 0x80 ||| (n &&& 0x3F)]

/-- SHA-256 padding: 0x80, zeros, 64-bit big-endian bit length. -/
def sha256Pad (msg : List Nat) : List Nat :=
  let len := msg.length
  let zeros := (64 + 55 - len % 64) % 64
  let bitLen := len * 8
  msg ++ [0x80] ++ List.replicate zeros 0 ++
    ((List.range 8).map (fun i => (bitLen >>> ((7 - i) * 8)) &&& 0xFF))

/-- Group a flat byte list into big-endian 32-bit words. -/
def bytesToWords : List Nat → List Nat
  | b0 :: b1 :: b2 :: b3 :: rest =>
    (((b0 * 256 + b1) * 256 + b2) * 256 + b3) :: bytesToWords rest
  | _ => []

/-- Group the word list into 16-word blocks (input length is a
multiple of 16 after padding). -/
def wordsToBlocks (fuel : Nat) (ws : List Nat) : List (List Nat) :=
  match fuel, ws with
  | 0, _ => []
  | _, [] => []
  | f + 1, ws => ws.take 16 :: wordsToBlocks f (ws.drop 16)

def hexDigit (n : Nat) : Char :=
  if n < 10 then Char.ofNat (48 + n) else Char.ofNat (87 + n)

def wordToHex (w : Nat) : List Char :=
  (List.range 8).map (fun i => hexDigit ((w >>> ((7 - i) * 4)) &&& 0xF))

/-- The hash behind hashValue in the source: SHA-256 of the UTF-8 bytes,
rendered as 64 lowercase hex characters. -/
def sha256Hex (s : String) : String :=
  let bytes := s.toList.flatMap utf8Bytes
  let blocks := wordsToBlocks (bytes.length + 64) (bytesToWords (sha256Pad bytes))
  let h := blocks.foldl sha256Block sha256H0
  ⟨(h.flatMap wordToHex)⟩

/-- hashValue from src/services/redaction.ts:
the crypto sha256 hash of the value, as a hex digest. -/
def hashValue (value : String) : String := sha256Hex value

-- test moved


/-! ## A small backtracking regular-expression engine

Sufficient for the three PII patterns of src/services/redaction.ts:
character classes, greedy `?`, `+`, bounded and unbounded counted
repetition, and the word-boundary assertion, with ECMAScript
leftmost-greedy backtracking semantics.  The matcher is written in
continuation-passing style; a fuel argument (always instantiated
generously) makes the recursion structural. -/

inductive Reg where
  | eps
  | cls (p : Char → Bool)
  | wb
  | seq (a b : Reg)
  | opt (a : Reg)
  | rep (lo : Nat) (hi : Option Nat) (a : Reg)

/-- ECMAScript word character, the \w class used by \b. -/
def isWordChar (c : Char) : Bool :=
  ('A' ≤ c && c ≤ 'Z') || ('a' ≤ c && c ≤ 'z') || ('0' ≤ c && c ≤ '9') || c = '_'

/-- \b holds between a word and a non-word position (string edges count
as non-word). -/
def atBoundary (prev : Option Char) (s : List Char) : Bool :=
  let pw := match prev with | some c => isWordChar c | none => false
  let nw := match s with | c :: _ => isWordChar c | [] => false
  pw != nw

/-- Backtracking matcher: on success the continuation receives the
character just consumed (for \b) and the remaining suffix.  Greedy
alternatives are tried first, as in ECMAScript. -/
def rrun : Nat → Reg → Option Char → List Char →
    (Option Char → List Char → Option (List Char)) → Option (List Char)
  | 0, _, _, _, _ => none
  | fuel + 1, r, prev, s, k =>
    match r with
    | .eps => k prev s
    | .cls p =>
      match s with
      | c :: rest => if p c then k (some c) rest else none
      | [] => none
    | .wb => if atBoundary prev s then k prev s else none
    | .seq a b => rrun fuel a prev s (fun p2 s2 => rrun fuel b p2 s2 k)
    | .opt a => (rrun fuel a prev s k).orElse (fun _ => k prev s)
    | .rep lo hi a =>
      match lo with
      | m + 1 =>
        rrun fuel a prev s
          (fun p2 s2 => rrun fuel (.rep m (hi.map (fun h => h - 1)) a) p2 s2 k)
      | 0 =>
        match hi with
        | some 0 => k prev s
        | _ =>
          (rrun fuel a prev s
            (fun p2 s2 =>
              rrun fuel (.rep 0 (hi.map (fun h => h - 1)) a) p2 s2 k)).orElse
            (fun _ => k prev s)

/-- Length of the leftmost-greedy match of r at the current position. -/
def matchLen (r : Reg) (prev : Option Char) (s : List Char) : Option Nat :=
  (rrun (8 * s.length + 64) r prev s (fun _ rest => some rest)).map
    (fun rest => s.length - rest.length)

/-- All matches of a /g regular expression, as regex.exec in a loop
produces them: repeatedly the leftmost match at or after the end of the
previous one (advancing one position on an empty match, as the source
loop would via lastIndex handling). -/
def scanAll (r : Reg) : Nat → Option Char → List Char → Nat → List (Nat × List Char)
  | 0, _, _, _ => []
  | f + 1, prev, s, pos =>
    match matchLen r prev s with
    | some len =>
      if len = 0 then
        match s with
        | [] => []
        | c :: cs => scanAll r f (some c) cs (pos + 1)
      else (pos, s.take len) :: scanAll r f ((s.take len).getLast?) (s.drop len) (pos + len)
    | none =>
      match s with
      | [] => []
      | c :: cs => scanAll r f (some c) cs (pos + 1)

/-- First match at or after the given position. -/
def scanFirst (r : Reg) : Nat → Option Char → List Char → Nat → Option (Nat × Nat)
  | 0, _, _, _ => none
  | f + 1, prev, s, pos =>
    match matchLen r prev s with
    | some len => some (pos, len)
    | none =>
      match s with
      | [] => none
      | c :: cs => scanFirst r f (some c) cs (pos + 1)

/-- regex.exec on a /g regex with a given lastIndex: no match is
attempted when lastIndex exceeds the string length. -/
def scanFirstFrom (r : Reg) (full : List Char) (lastIndex : Nat) : Option (Nat × Nat) :=
  if lastIndex > full.length then none
  else
    scanFirst r (full.length + 1) ((full.take lastIndex).getLast?)
      (full.drop lastIndex) lastIndex

/-! ## The PII patterns (PII_PATTERNS in src/services/redaction.ts) -/

def asciiUpper (c : Char) : Bool := 'A' ≤ c && c ≤ 'Z'
def asciiLower (c : Char) : Bool := 'a' ≤ c && c ≤ 'z'
def asciiDigit (c : Char) : Bool := '0' ≤ c && c ≤ '9'

def emailLocalChar (c : Char) : Bool :=
  asciiUpper c || asciiLower c || asciiDigit c ||
    c = '.' || c = '_' || c = '%' || c = '+' || c = '-'

def emailDomainChar (c : Char) : Bool :=
  asciiUpper c || asciiLower c || asciiDigit c || c = '.' || c = '-'

/-- The class [A-Z|a-z] of the source pattern: note that it literally
contains the bar character. -/
def emailTldChar (c : Char) : Bool := asciiUpper c || asciiLower c || c = '|'

def phoneSepChar (c : Char) : Bool := c = '-' || c = '.' || isJsWs c

def ssnSepChar (c : Char) : Bool := c = '-' || isJsWs c

def chR (c : Char) : Reg := .cls (fun x => x = c)

def seqAll (rs : List Reg) : Reg := rs.foldr .seq .eps

/-- Pattern /\b[A-Za-z0-9._%+-]+@[A-Za-z0-9.-]+\.[A-Z|a-z]{2,}\b/g -/
def emailReg : Reg :=
  seqAll [.wb, .rep 1 none (.cls emailLocalChar), chR '@',
          .rep 1 none (.cls emailDomainChar), chR '.',
          .rep 2 none (.cls emailTldChar), .wb]

/-- Pattern /(\+?1[-.\s]?)?\(?\d{3}\)?[-.\s]?\d{3}[-.\s]?\d{4}\b/g -/
def phoneReg : Reg :=
  seqAll [.opt (seqAll [.opt (chR '+'), chR '1', .opt (.cls phoneSepChar)]),
          .opt (chR '('), .rep 3 (some 3) (.cls asciiDigit), .opt (chR ')'),
          .opt (.cls phoneSepChar), .rep 3 (some 3) (.cls asciiDigit),
          .opt (.cls phoneSepChar), .rep 4 (some 4) (.cls asciiDigit), .wb]

/-- Pattern /\b\d{3}[-\s]?\d{2}[-\s]?\d{4}\b/g -/
def ssnReg : Reg :=
  seqAll [.wb, .rep 3 (some 3) (.cls asciiDigit), .opt (.cls ssnSepChar),
          .rep 2 (some 2) (.cls asciiDigit), .opt (.cls ssnSepChar),
          .rep 4 (some 4) (.cls asciiDigit), .wb]

/-! ## The redaction service (src/services/redaction.ts) -/

inductive PIIType where
  | email
  | phone
  | ssn
deriving DecidableEq

/-- RedactionMatch.  The source field named end is called endPos here
(end is reserved in Lean); start and endPos are integers because the
source mutates them with a possibly negative offset adjustment. -/
structure RedactionMatch where
  type : PIIType
  value : String
  start : Int
  endPos : Int
  hash : String
deriving DecidableEq

structure RedactionResult where
  redactedText : String
  matches' : List RedactionMatch
  redactionCount : Nat

def PII_PATTERNS : List (PIIType × Reg) :=
  [(.email, emailReg), (.phone, phoneReg), (.ssn, ssnReg)]

def REDACTION_LABELS : PIIType → String
  | .email => "[REDACTED_EMAIL]"
  | .phone => "[REDACTED_PHONE]"
  | .ssn => "[REDACTED_SSN]"

/-- The raw matches one pattern produces on the original text, already
packaged as tempMatches in the source (offsets in the original text,
end = start + value.length, hash of the literal). -/
def pattMatches (tp : PIIType × Reg) (text : List Char) : List RedactionMatch :=
  (scanAll tp.2 (text.length + 1) none text 0).map
    (fun m =>
      { type := tp.1, value := ⟨m.2⟩, start := (m.1 : Int),
        endPos := (m.1 : Int) + m.2.length, hash := hashValue ⟨m.2⟩ })

/-- Comparator (a, b) => b.start - a.start (descending, stable). -/
def befDescStart (a b : RedactionMatch) : Bool := decide (b.start ≤ a.start)

/-- Comparator (a, b) => a.start - b.start (ascending, stable). -/
def befAscStart (a b : RedactionMatch) : Bool := decide (a.start ≤ b.start)

/-- One iteration of the apply-redactions loop: splice the label over
the still original offsets of the match, then shift the stored offsets by
the current offsetAdjustment and set end to start + label.length, then
push the match. -/
def applyOne (label : List Char) (adj : Int)
    (acc : List Char × List RedactionMatch) (m : RedactionMatch) :
    List Char × List RedactionMatch :=
  (acc.1.take m.start.toNat ++ label ++ acc.1.drop m.endPos.toNat,
   acc.2 ++ [{ m with start := m.start + adj, endPos := m.start + adj + label.length }])

/-- Processing of one PII type inside redactPII: collect this
matches of this pattern on the original text, sort them descending by start,
apply the replacements against the current redactedText, and only then
add the length changes of this type to the offset adjustment. -/
def redactStep (text : List Char)
    (st : List Char × List RedactionMatch × Int) (tp : PIIType × Reg) :
    List Char × List RedactionMatch × Int :=
  let label := (REDACTION_LABELS tp.1).toList
  let sorted := stableSortBy befDescStart (pattMatches tp text)
  let applied := sorted.foldl (applyOne label st.2.2) (st.1, [])
  let adj2 := sorted.foldl
    (fun a m => a + ((label.length : Int) - (m.value.length : Int))) st.2.2
  (applied.1, st.2.1 ++ applied.2, adj2)

/-- redactPII from src/services/redaction.ts. -/
def redactPII (text : String) : RedactionResult :=
  let final := PII_PATTERNS.foldl (redactStep text.toList) (text.toList, [], 0)
  let sortedMatches := stableSortBy befAscStart final.2.1
  { redactedText := ⟨final.1⟩, matches' := sortedMatches,
    redactionCount := sortedMatches.length }

/-! ## containsPII: the stateful verification predicate

containsPII calls .test on the *global* pattern objects themselves, so
the lastIndex of each /g regex persists between calls.  The state of
the three global regexes is made explicit here. -/

structure RegexGlobalState where
  emailLast : Nat
  phoneLast : Nat
  ssnLast : Nat
deriving DecidableEq

/-- The lastIndex state of the freshly created pattern objects at
module load. -/
def initRegexState : RegexGlobalState := ⟨0, 0, 0⟩

/-- RegExp.prototype.test on a /g regex: search from lastIndex; on a
match set lastIndex past it and report true, otherwise reset lastIndex
to 0 and report false. -/
def testGlobal (r : Reg) (full : List Char) (lastIndex : Nat) : Bool × Nat :=
  match scanFirstFrom r full lastIndex with
  | some m => (true, m.1 + m.2)
  | none => (false, 0)

/-- containsPII from src/services/redaction.ts, with the shared regex
state passed explicitly; returns the boolean result and the state the
three global regexes are left in (the loop returns early on the first
pattern that tests true). -/
def containsPII (st : RegexGlobalState) (text : String) :
    Bool × RegexGlobalState :=
  let cs := text.toList
  let e := testGlobal emailReg cs st.emailLast
  if e.1 then (true, { st with emailLast := e.2 })
  else
    let p := testGlobal phoneReg cs st.phoneLast
    if p.1 then (true, { st with emailLast := e.2, phoneLast := p.2 })
    else
      let s := testGlobal ssnReg cs st.ssnLast
      if s.1 then
        (true, { st with emailLast := e.2, phoneLast := p.2, ssnLast := s.2 })
      else (false, { st with emailLast := e.2, phoneLast := p.2, ssnLast := s.2 })

/-! ## Exact rationals for JavaScript numbers

The numbers flowing through the modelled code (confidences, parsed
contract values, relevance distances) are decimal literals and simple
arithmetic on them, so they are modelled exactly.  The representation
is an unnormalised fraction: all operations are plain integer
arithmetic, with comparisons by cross-multiplication. -/

structure JsRat where
  num : Int
  den : Nat
deriving DecidableEq

instance : OfNat JsRat n := ⟨⟨n, 1⟩⟩

def JsRat.le (a b : JsRat) : Prop := a.num * b.den ≤ b.num * a.den

def JsRat.ltRel (a b : JsRat) : Prop := a.num * b.den < b.num * a.den

instance : LE JsRat := ⟨JsRat.le⟩

instance : LT JsRat := ⟨JsRat.ltRel⟩

instance (a b : JsRat) : Decidable (a ≤ b) := Int.decLe _ _

instance (a b : JsRat) : Decidable (a < b) := Int.decLt _ _

def JsRat.sub (a b : JsRat) : JsRat :=
  ⟨a.num * b.den - b.num * a.den, a.den * b.den⟩

def JsRat.div (a b : JsRat) : JsRat :=
  ⟨a.num * b.den * b.num.sign, a.den * b.num.natAbs⟩

/-! ## JavaScript values

The loosely-typed field maps handled by the evaluator.  JavaScript
numbers are modelled as exact rationals plus a NaN marker (the
evaluator only parses decimal literals and compares against an exact
threshold, so no floating-point rounding is observable here). -/

inductive JValue where
  | null
  | bool (b : Bool)
  | num (q : JsRat)
  | nan
  | str (s : String)
  | arr (l : List JValue)
  | obj (l : List (String × JValue))

/-- JavaScript truthiness of a possibly-absent value (undefined, null,
false, 0, NaN and the empty string are falsy). -/
def jsTruthy : Option JValue → Bool
  | none => false
  | some .null => false
  | some (.bool b) => b
  | some (.num q) => decide (q.num ≠ 0)
  | some .nan => false
  | some (.str s) => decide (s ≠ "")
  | some (.arr _) => true
  | some (.obj _) => true

def natToStringAux : Nat → Nat → List Char
  | 0, _ => []
  | f + 1, n =>
    if n < 10 then [Char.ofNat (48 + n)]
    else natToStringAux f (n / 10) ++ [Char.ofNat (48 + n % 10)]

def natToString (n : Nat) : String := ⟨natToStringAux (n + 1) n⟩

/-- Decimal digits of the fractional part num/den (num < den), fuel
bounded; the values reaching this printer in the modelled code are
terminating decimals. -/
def fracDigitsAux : Nat → Nat → Nat → List Char
  | 0, _, _ => []
  | _ + 1, 0, _ => []
  | f + 1, num, den =>
    Char.ofNat (48 + num * 10 / den) :: fracDigitsAux f (num * 10 % den) den

/-- Rendering of a finite JavaScript number (String(n)). -/
def jsNumToString (q : JsRat) : String :=
  let sign := if q.num < 0 then "-" else ""
  let anum := q.num.natAbs
  let ip := anum / q.den
  let fnum := anum % q.den
  if fnum = 0 then sign ++ natToString ip
  else sign ++ natToString ip ++ "." ++ ⟨fracDigitsAux 20 fnum q.den⟩

/-- String(v) for the values that reach it here. -/
def jsToStringF : Nat → JValue → String
  | _, .null => "null"
  | _, .bool b => if b then "true" else "false"
  | _, .num q => jsNumToString q
  | _, .nan => "NaN"
  | _, .str s => s
  | 0, .arr _ => ""
  | f + 1, .arr l => String.intercalate "," (l.map (jsToStringF f))
  | _, .obj _ => "[object Object]"

def jsToString (v : JValue) : String := jsToStringF 1000 v

/-- Array.prototype.join(sep): null elements render as the empty
string. -/
def jsJoinVals (sep : String) (l : List JValue) : String :=
  String.intercalate sep
    (l.map (fun v => match v with | .null => "" | v => jsToString v))

/-- String.prototype.replace(/[^0-9.]/g, ''). -/
def cleanNonNumeric (s : String) : String :=
  ⟨s.toList.filter (fun c => asciiDigit c || c = '.')⟩

def digitsToNat (cs : List Char) : Nat :=
  cs.foldl (fun a c => a * 10 + (c.toNat - 48)) 0

/-- parseFloat on a string of digits and dots (the shape produced by
cleanNonNumeric); none is NaN. -/
def parseFloatDD (s : String) : Option JsRat :=
  let cs := s.toList
  let ip := cs.takeWhile asciiDigit
  let rest := cs.dropWhile asciiDigit
  let withFrac := fun (ipv : Nat) (r2 : List Char) =>
    let fr := r2.takeWhile asciiDigit
    (⟨ipv * 10 ^ fr.length + digitsToNat fr, 10 ^ fr.length⟩ : JsRat)
  match ip, rest with
  | [], '.' :: r2 =>
    if r2.takeWhile asciiDigit = [] then none else some (withFrac 0 r2)
  | [], _ => none
  | _, '.' :: r2 => some (withFrac (digitsToNat ip) r2)
  | _, _ => some (⟨digitsToNat ip, 1⟩ : JsRat)

/-- Number.prototype.toLocaleString() in the default en-US locale:
thousands grouping, at most three (here: exactly the significant)
fraction digits; NaN renders as "NaN". -/
def chunksOf3 : Nat → List Char → List (List Char)
  | 0, _ => []
  | _, [] => []
  | f + 1, l => l.take 3 :: chunksOf3 f (l.drop 3)

def groupDigits (cs : List Char) : List Char :=
  let chunks := chunksOf3 (cs.length + 1) cs.reverse
  (String.intercalate "," (chunks.map (fun c => String.mk c))).toList.reverse

def jsToLocaleString : Option JsRat → String
  | none => "NaN"
  | some q =>
    let sign := if q.num < 0 then "-" else ""
    let anum := q.num.natAbs
    let ip := anum / q.den
    let fnum := anum % q.den
    let frac := fracDigitsAux 3 fnum q.den
    sign ++ ⟨groupDigits (natToString ip).toList⟩ ++
      (if frac.isEmpty then "" else "." ++ ⟨frac⟩)

/-! ## The compliance checklist evaluator (generateChecklist in the
aiService) -/

structure ChecklistItem where
  requirement : String
  status : String
  evidence : String
  ruleId : String
  severity : String
deriving DecidableEq

/-- A retrieved rule as passed to generateChecklist (the rulesData
objects built in the analyze route). -/
structure RuleMetadata where
  title : String
  category : String
  severity : String
deriving DecidableEq

structure RetrievedRule where
  id : String
  content : String
  metadata : RuleMetadata
deriving DecidableEq

/-- Test of /^[A-Z0-9]{12}$/ against s. -/
def ueiPatternTest (s : String) : Bool :=
  s.length = 12 && s.toList.all (fun c => asciiUpper c || asciiDigit c)

/-- generateChecklist from the aiService.  The four checks append
their items in source order; relevantRules is received but never read
(the parameter is named _relevantRules in the source). -/
def generateChecklist (fields : List (String × JValue)) (documentType : String)
    (_relevantRules : List RetrievedRule) : List ChecklistItem :=
  -- Check UEI requirement (R1)
  let r1 : List ChecklistItem :=
    if documentType = "company_profile" then
      let uei := fields.lookup "UEI"
      if !jsTruthy uei || !ueiPatternTest (jsToString (uei.getD .null)) then
        [{ requirement := "Valid UEI Required", status := "non_compliant",
           evidence :=
             if jsTruthy uei then "Invalid UEI format: " ++ jsToString (uei.getD .null)
             else "UEI not found in document",
           ruleId := "R1", severity := "critical" }]
      else
        [{ requirement := "Valid UEI Required", status := "compliant",
           evidence := "Valid UEI found: " ++ jsToString (uei.getD .null),
           ruleId := "R1", severity := "critical" }]
    else []
  -- Check NAICS to SIN mapping (R2): note the truthiness guard, an
  -- absent NAICS_codes field skips the check entirely
  let r2 : List ChecklistItem :=
    if documentType = "company_profile" && jsTruthy (fields.lookup "NAICS_codes") then
      let naicsCodes :=
        match fields.lookup "NAICS_codes" with
        | some (.arr l) => l
        | some v => [v]
        | none => []
      if naicsCodes.length > 0 then
        [{ requirement := "NAICS Code to SIN Mapping", status := "needs_review",
           evidence := "Found " ++ natToString naicsCodes.length ++
             " NAICS code(s): " ++ jsJoinVals ", " naicsCodes ++
             ". Requires mapping verification.",
           ruleId := "R2", severity := "high" }]
      else
        [{ requirement := "NAICS Code to SIN Mapping", status := "non_compliant",
           evidence := "No NAICS codes found in document",
           ruleId := "R2", severity := "high" }]
    else []
  -- Check contract value threshold (R3): guarded by
  -- fields.contract_value !== undefined
  let r3 : List ChecklistItem :=
    if documentType = "past_performance" && (fields.lookup "contract_value").isSome then
      let value := parseFloatDD (cleanNonNumeric
        (jsToString ((fields.lookup "contract_value").getD .null)))
      if (match value with | some v => decide (25000 ≤ v) | none => false) then
        [{ requirement := "Contract Value >= $25,000", status := "compliant",
           evidence := "Contract value: $" ++ jsToLocaleString value,
           ruleId := "R3", severity := "high" }]
      else
        [{ requirement := "Contract Value >= $25,000", status := "non_compliant",
           evidence := "Contract value $" ++ jsToLocaleString value ++
             " is below $25,000 threshold",
           ruleId := "R3", severity := "high" }]
    else []
  -- Check pricing requirements (R4)
  let r4 : List ChecklistItem :=
    if documentType = "pricing_sheet" then
      match fields.lookup "labor_categories" with
      | some (.arr l) =>
        if l.length > 0 then
          [{ requirement := "Labor Category Details", status := "compliant",
             evidence := "Found " ++ natToString l.length ++
               " labor categories with details",
             ruleId := "R4", severity := "medium" }]
        else
          [{ requirement := "Labor Category Details", status := "non_compliant",
             evidence := "Labor categories missing or incomplete",
             ruleId := "R4", severity := "medium" }]
      | _ =>
        [{ requirement := "Labor Category Details", status := "non_compliant",
           evidence := "Labor categories missing or incomplete",
           ruleId := "R4", severity := "medium" }]
    else []
  r1 ++ r2 ++ r3 ++ r4

/-! ## The rule corpus and lexical retriever (SimpleVectorStore) -/

structure GSARule where
  id : String
  title : String
  content : String
  category : String
  severity : String
deriving DecidableEq

structure VectorDocument where
  id : String
  content : String
  metadata : RuleMetadata
deriving DecidableEq

/-- The static rule corpus GSA_RULES of the SimpleVectorStore. -/
def GSA_RULES : List GSARule :=
  [{ id := "R1", title := "Unique Entity Identifier (UEI) Requirement",
     content := "All vendors must provide a valid Unique Entity Identifier (UEI) in their company profile. The UEI is a 12-character alphanumeric identifier assigned by SAM.gov. Missing or invalid UEI is a critical compliance violation that must be flagged immediately. Legacy DUNS numbers (9-digit numeric) are no longer accepted as primary identifiers but may be present for reference.",
     category := "identification", severity := "critical" },
   { id := "R2", title := "NAICS Code to SIN Mapping",
     content := "Each NAICS (North American Industry Classification System) code provided must map to at least one valid Special Item Number (SIN). NAICS codes are 6-digit numeric codes that classify business establishments. The mapping must be verified and duplicates should be removed per the official GSA SIN to NAICS mapping table. Multiple NAICS codes may map to the same SIN, but each unique SIN should only be listed once in the final output.",
     category := "classification", severity := "high" },
   { id := "R3", title := "Contract Value Threshold",
     content := "All GSA contracts must be valued at $25,000 or more to be eligible for award. Contracts below this threshold are not permitted under GSA regulations. This is a mandatory minimum that cannot be waived or reduced.",
     category := "financial", severity := "critical" },
   { id := "R4", title := "Labor Category Requirements",
     content := "All service contracts must specify labor categories with clear job titles, required qualifications, and minimum experience requirements. Each labor category must include education requirements, years of experience, certifications, and clearance levels if applicable. Labor categories must be distinct and not overlap in responsibilities.",
     category := "labor", severity := "high" },
   { id := "R5", title := "PII Redaction Requirements",
     content := "All personally identifiable information (PII) must be redacted from submitted documents before processing. PII includes names, addresses, phone numbers, email addresses, Social Security Numbers, and financial account information. Redaction must be complete and irreversible. Partial redaction is not acceptable.",
     category := "security", severity := "critical" }]

/-- this.documents after initializeWithGSARules. -/
def storeDocuments : List VectorDocument :=
  GSA_RULES.map (fun rule => ⟨rule.id, rule.content, ⟨rule.title, rule.category, rule.severity⟩⟩)

structure ScoredDoc where
  doc : VectorDocument
  score : Nat
deriving DecidableEq

/-- str.isPrefixOf-based substring test, String.prototype.includes
(the empty needle is contained in everything). -/
def containsSub (pat : List Char) : List Char → Bool
  | [] => pat.isPrefixOf []
  | c :: cs => if pat.isPrefixOf (c :: cs) then true else containsSub pat cs

/-- The lexical score of one rule document: +2 for each query word
that occurs in the lower-cased content, +3 for each that occurs in the
lower-cased title. -/
def scoreDoc (queryWords : List (List Char)) (doc : VectorDocument) : Nat :=
  queryWords.foldl
    (fun s w =>
      let s1 := if containsSub w (jsToLower doc.content.toList) then s + 2 else s
      if containsSub w (jsToLower doc.metadata.title.toList) then s1 + 3 else s1)
    0

structure QueryResult where
  ids : List String
  documents : List String
  metadatas : List RuleMetadata
  distances : List JsRat
deriving DecidableEq

/-- The scored list built by SimpleVectorStore.query (corpus order). -/
def scoredDocs (query : String) : List ScoredDoc :=
  let q := jsToLower query.toList
  let queryWords := jsSplitWs q
  storeDocuments.map (fun doc => ⟨doc, scoreDoc queryWords doc⟩)

/-- topResults: zero scores excluded, stable sort descending by
score, truncated to nResults. -/
def topResults (query : String) (nResults : Nat) : List ScoredDoc :=
  (stableSortBy (fun a b => decide (b.score ≤ a.score))
    ((scoredDocs query).filter (fun item => 0 < item.score))).take nResults

/-- SimpleVectorStore.query; none models the TypeError thrown when
queryTexts is empty (queryTexts[0] is undefined). -/
def storeQuery (queryTexts : List String) (nResults : Nat) : Option QueryResult :=
  match queryTexts with
  | [] => none
  | q :: _ =>
    let tr := topResults q nResults
    some { ids := tr.map (fun i => i.doc.id),
           documents := tr.map (fun i => i.doc.content),
           metadatas := tr.map (fun i => i.doc.metadata),
           distances := tr.map (fun i => JsRat.sub 1 (JsRat.div ⟨i.score, 1⟩ 10)) }

/-- queryRules from the vectorStore module: throws when the global
collection has not been set up. -/
def queryRules (storeReady : Bool) (query : String) (nResults : Nat) :
    Except String QueryResult :=
  if !storeReady then .error "Vector store not initialized"
  else
    match storeQuery [query] nResults with
    | some r => .ok r
    | none => .error "TypeError"

/-! ## Classification and extraction (aiService)

The LLM calls are external capabilities: each is modelled by an oracle
value describing the parsed outcome of the call (an error covers both a
transport failure and an unparseable response, as both land in the same
catch block of the source). -/

def CONFIDENCE_THRESHOLD : JsRat := ⟨4, 5⟩

structure ClassificationResult where
  documentType : String
  confidence : JsRat
  reasoning : String
  shouldAbstain : Bool
deriving DecidableEq

/-- The fields of the JSON object the classifier LLM returned, each
possibly absent. -/
structure RawClassification where
  documentType : Option String
  confidence : Option JsRat
  reasoning : Option String

/-- x || d for a possibly-absent string (the empty string is falsy). -/
def jsOrString (o : Option String) (d : String) : String :=
  match o with
  | some s => if s = "" then d else s
  | none => d

/-- classifyDocument: on any error the catch block returns the
abstaining fallback; otherwise the fields are defaulted with ||, while
shouldAbstain compares the *raw* confidence against the threshold
(undefined < threshold is false in JavaScript). -/
def classifyDocument (oracle : Except Unit RawClassification) : ClassificationResult :=
  match oracle with
  | .error _ =>
    { documentType := "unknown", confidence := 0,
      reasoning := "Classification failed due to error", shouldAbstain := true }
  | .ok r =>
    { documentType := jsOrString r.documentType "unknown",
      confidence := (r.confidence.getD 0),
      reasoning := jsOrString r.reasoning "No reasoning provided",
      shouldAbstain :=
        match r.confidence with
        | some c => decide (c < CONFIDENCE_THRESHOLD)
        | none => false }

structure FieldExtractionResult where
  fields : List (String × JValue)
  confidence : JsRat
  extractedCount : Nat

/-- extractFields: unknown document types extract nothing; the known
types count the non-null, non-empty extracted values against the
per-type field list length (5, 6 and 4 fields respectively).  Errors
are swallowed into the empty fallback. -/
def extractFields (oracle : Except Unit (List (String × JValue)))
    (documentType : String) : FieldExtractionResult :=
  let fieldsToExtractLen : Nat :=
    if documentType = "company_profile" then 5
    else if documentType = "past_performance" then 6
    else if documentType = "pricing_sheet" then 4
    else 0
  if fieldsToExtractLen = 0 then { fields := [], confidence := 0, extractedCount := 0 }
  else
    match oracle with
    | .error _ => { fields := [], confidence := 0, extractedCount := 0 }
    | .ok fields =>
      let extractedCount :=
        (fields.filter (fun kv =>
          match kv.2 with
          | .null => false
          | .str s => decide (s ≠ "")
          | _ => true)).length
      { fields := fields,
        confidence := (⟨extractedCount, fieldsToExtractLen⟩ : JsRat),
        extractedCount := extractedCount }

/-- generateNegotiationBrief: the brief is whatever the LLM returned,
trimmed, or the fixed fallback if the call failed. -/
def generateNegotiationBrief (oracle : Except Unit String) : String :=
  match oracle with
  | .ok s => s.trim
  | .error _ => "Unable to generate negotiation brief due to AI service error."

/-- generateClientEmail, same shape. -/
def generateClientEmail (oracle : Except Unit String) : String :=
  match oracle with
  | .ok s => s.trim
  | .error _ => "Unable to generate client email due to AI service error."

/-! ## The analysis orchestrator (POST /api/analyze)

The handler is modelled from the point where the analysis record has
been created (status "processing").  The repository row is threaded as
explicit state; JSON.stringify of structured results kept on the row is
modelled by keeping the structured value itself.  Database writes are
assumed to succeed; rule retrieval is the step of the pipeline that can
throw (the extraction and generation helpers swallow their errors). -/

/-- JSON.stringify for the field maps interpolated into the rule
query. -/
def jsonEscape (s : String) : String :=
  ⟨s.toList.flatMap (fun c => if c = '"' || c = '\\' then ['\\', c] else [c])⟩

def jsonStringifyF : Nat → JValue → String
  | _, .null => "null"
  | _, .bool b => if b then "true" else "false"
  | _, .num q => jsNumToString q
  | _, .nan => "null"
  | _, .str s => "\"" ++ jsonEscape s ++ "\""
  | 0, _ => ""
  | f + 1, .arr l => "[" ++ String.intercalate "," (l.map (jsonStringifyF f)) ++ "]"
  | f + 1, .obj kvs =>
    "\x7b" ++
      String.intercalate ","
        (kvs.map (fun kv => "\"" ++ jsonEscape kv.1 ++ "\":" ++ jsonStringifyF f kv.2)) ++
      "\x7d"

def jsonStringifyFields (fields : List (String × JValue)) : String :=
  jsonStringifyF 1000 (.obj fields)

/-- The analysis_results row (columns not touched by the modelled flow
are omitted). -/
structure AnalysisRecord where
  document_classification : Option String
  classification_confidence : Option JsRat
  checklist_items : Option (List ChecklistItem)
  negotiation_brief : Option String
  client_email : Option String
  rule_citations : Option (List String)
  status : String
  error_message : Option String
deriving DecidableEq

/-- The record as created at the start of the handler. -/
def initialAnalysisRecord : AnalysisRecord :=
  { document_classification := none, classification_confidence := none,
    checklist_items := none, negotiation_brief := none, client_email := none,
    rule_citations := none, status := "processing", error_message := none }

/-- What the handler hands back to the HTTP layer: the abstention
response, the success response, or an error forwarded to the error
middleware by next(error). -/
inductive AnalyzeOutcome where
  | warning
  | success
  | failure (message : String)
deriving DecidableEq

/-- The outcomes of the external calls made during one analysis run. -/
structure AnalyzeOracle where
  classify : Except Unit RawClassification
  extract : Except Unit (List (String × JValue))
  storeReady : Bool
  brief : Except Unit String
  email : Except Unit String

/-- Steps 1-6 of the analyze route, from record creation to the final
repository update.  An exception escaping a step lands in the catch
block, which only logs and forwards the error: the record keeps
whatever was last written to it. -/
def analyzeHandler (o : AnalyzeOracle) : AnalysisRecord × AnalyzeOutcome :=
  let rec0 := initialAnalysisRecord
  -- Step 1: classify document
  let classification := classifyDocument o.classify
  let rec1 := { rec0 with
    document_classification := some classification.documentType,
    classification_confidence := some classification.confidence }
  -- If classification abstained, return early
  if classification.shouldAbstain then
    ({ rec1 with
        status := "completed_with_warnings",
        error_message :=
          some ("Low confidence classification: " ++ classification.reasoning) },
     .warning)
  else
    -- Step 2: extract fields
    let fieldExtraction := extractFields o.extract classification.documentType
    -- Step 3: query relevant rules using RAG
    let ruleQuery := classification.documentType ++ " compliance requirements " ++
      jsonStringifyFields fieldExtraction.fields
    match queryRules o.storeReady ruleQuery 5 with
    | .error e => (rec1, .failure e)
    | .ok relevantRules =>
      let rulesData :=
        (relevantRules.ids.zip (relevantRules.documents.zip relevantRules.metadatas)).map
          (fun z => RetrievedRule.mk z.1 z.2.1 z.2.2)
      -- Step 4: generate compliance checklist
      let checklist :=
        generateChecklist fieldExtraction.fields classification.documentType rulesData
      -- Steps 5-6: generate prose outputs
      let negotiationBrief := generateNegotiationBrief o.brief
      let clientEmail := generateClientEmail o.email
      ({ rec1 with
          checklist_items := some checklist,
          negotiation_brief := some negotiationBrief,
          client_email := some clientEmail,
          rule_citations := some relevantRules.ids,
          status := "completed" },
       .success)

/-- The ordering established by the stable sort: every earlier element
weakly precedes every later one, and if the later one also weakly
precedes it (a comparator tie) the auxiliary relation R — used below
for "appeared earlier in the input" — holds. -/
def QRel (bef : α → α → Bool) (R : α → α → Prop) (a b : α) : Prop :=
  bef a b = true ∧ (bef b a = true → R a b)

/-- Position of a rule identifier in the static corpus. -/
def corpusRank (rid : String) : Nat := storeDocuments.findIdx (fun d => d.id = rid)

/-- The severity constant hardcoded at each push site of
generateChecklist, keyed by the rule identifier the site cites. -/
def checkSeverity : String → String
  | "R1" => "critical"
  | "R2" => "high"
  | "R3" => "high"
  | "R4" => "medium"
  | _ => ""

/-- The oracle of the C6 witness run. -/
def c6WitnessOracle : AnalyzeOracle :=
  { classify := .ok ⟨some "pricing_sheet", some ⟨19, 20⟩, some "rates table"⟩,
    extract := .ok [("labor_categories", .arr [])], storeReady := false,
    brief := .ok "b", email := .ok "e" }

/-- The invariant every match in the returned list satisfies: the hash
field is the digest of the value field, and the end offset is the
(adjusted) start offset plus the length of the placeholder token of
the category of the match itself — not the length of the matched literal. -/
def MatchInv (m : RedactionMatch) : Prop :=
  m.hash = hashValue m.value ∧
  m.endPos = m.start + ((REDACTION_LABELS m.type).toList.length : Int)

/-- The original-offset slice notation original_text[start:end] used by
the claim (clamping, as String.prototype.substring does). -/
def strSlice (t : String) (a b : Int) : String :=
  ⟨(t.toList.take b.toNat).drop a.toNat⟩

/-- Splicing the placeholder of one match over its offsets, the text part
of one iteration of the apply-redactions loop. -/
def spliceText (txt : List Char) (m : RedactionMatch) : List Char :=
  txt.take m.start.toNat ++ (REDACTION_LABELS m.type).toList ++ txt.drop m.endPos.toNat

/-- Adjacency of the matched spans in ascending order (each span ends
at or before the next begins). -/
def adjOK : List RedactionMatch → Bool
  | [] => true
  | [_] => true
  | a :: b :: rest => decide (a.endPos ≤ b.start) && adjOK (b :: rest)

/-- Every span is non-empty, starts at a non-negative offset and ends
within the text. -/
def boundsOK (len : Nat) (ms : List RedactionMatch) : Bool :=
  ms.all (fun m => decide (0 ≤ m.start) && decide (m.start < m.endPos) &&
    decide (m.endPos ≤ (len : Int)))

/-- The matched spans form a disjoint, in-bounds, ascending chain. -/
def chainOKb (len : Nat) (ms : List RedactionMatch) : Bool :=
  boundsOK len ms && adjOK ms

/-- Modelled from the spec (option (b) of the replacement contract,
used by claim C3): rebuild the output in one ascending pass, keeping
the text outside the matched spans and splicing the category
placeholder over each span at its offsets in the original text. -/
def rebuildFrom (s : List Char) (pos : Nat) : List RedactionMatch → List Char
  | [] => s.drop pos
  | m :: rest =>
    (s.drop pos).take (m.start.toNat - pos) ++
      ((REDACTION_LABELS m.type).toList ++ rebuildFrom s m.endPos.toNat rest)

/-- All raw matches of all categories at their original offsets (the
spans the claim splices). -/
def rawMatchesAll (t : String) : List RedactionMatch :=
  PII_PATTERNS.foldl (fun acc tp => acc ++ pattMatches tp t.toList) []

/-- Modelled from the spec: the de-identified text reconstructed from
the original text and the match list, ascending by original start
offset. -/
def rebuildSpec (t : String) : String :=
  ⟨rebuildFrom t.toList 0 (stableSortBy befAscStart (rawMatchesAll t))⟩

/-! ## Theorems -/

theorem sha256Hex_abc :
    sha256Hex "abc" =
      "ba7816bf8f01cfea414140de5dae2223b00361a396177a9cb410ff61f20015ad" := by
  decide

/-! ## Properties of the stable sort -/

theorem mem_insertStable {bef : α → α → Bool} {x a : α} :
    ∀ {l : List α}, a ∈ insertStable bef x l ↔ a = x ∨ a ∈ l := by
  intro l
  induction l with
  | nil => simp [insertStable]
  | cons y ys ih =>
    cases h : bef y x with
    | true =>
      simp only [insertStable, h, if_true, List.mem_cons, ih]
      tauto
    | false =>
      simp only [insertStable, h, Bool.false_eq_true, if_false, List.mem_cons]
      try tauto

theorem mem_foldl_insertStable {bef : α → α → Bool} {a : α} :
    ∀ (l acc : List α),
      (a ∈ l.foldl (fun acc x => insertStable bef x acc) acc) ↔ (a ∈ acc ∨ a ∈ l) := by
  intro l
  induction l with
  | nil => simp
  | cons x xs ih =>
    intro acc
    simp only [List.foldl_cons, ih, mem_insertStable, List.mem_cons]
    tauto

theorem mem_stableSortBy {bef : α → α → Bool} {a : α} {l : List α} :
    a ∈ stableSortBy bef l ↔ a ∈ l := by
  simpa [stableSortBy] using @mem_foldl_insertStable _ bef a l []

theorem pairwise_insertStable {bef : α → α → Bool} {R : α → α → Prop}
    (tot : ∀ a b, bef a b = true ∨ bef b a = true)
    (btrans : ∀ a b c, bef a b = true → bef b c = true → bef a c = true)
    {x : α} :
    ∀ {acc : List α}, acc.Pairwise (QRel bef R) → (∀ a ∈ acc, R a x) →
      (insertStable bef x acc).Pairwise (QRel bef R) := by
  intro acc
  induction acc with
  | nil => intro _ _; simp [insertStable]
  | cons y ys ih =>
    intro hp hr
    rw [List.pairwise_cons] at hp
    obtain ⟨hy, hys⟩ := hp
    by_cases h : bef y x
    · simp only [insertStable, h, if_true]
      rw [List.pairwise_cons]
      refine ⟨?_, ih hys (fun a ha => hr a (List.mem_cons_of_mem _ ha))⟩
      intro z hz
      rcases mem_insertStable.mp hz with rfl | hz2
      · exact ⟨h, fun _ => hr y (List.mem_cons_self _ _)⟩
      · exact hy z hz2
    · have hf : bef y x = false := by simpa using h
      simp only [insertStable, hf, Bool.false_eq_true, if_false]
      rw [List.pairwise_cons]
      have hbxy : bef x y = true := by
        rcases tot x y with h1 | h1
        · exact h1
        · exact absurd h1 h
      refine ⟨?_, List.pairwise_cons.mpr ⟨hy, hys⟩⟩
      intro z hz
      rcases List.mem_cons.mp hz with rfl | hz2
      · exact ⟨hbxy, fun hyx => absurd hyx h⟩
      · have hyz := (hy z hz2).1
        exact ⟨btrans x y z hbxy hyz, fun hzx => absurd (btrans y z x hyz hzx) h⟩

theorem pairwise_foldl_insertStable {bef : α → α → Bool} {R : α → α → Prop}
    (tot : ∀ a b, bef a b = true ∨ bef b a = true)
    (btrans : ∀ a b c, bef a b = true → bef b c = true → bef a c = true) :
    ∀ (l acc : List α), acc.Pairwise (QRel bef R) →
      (∀ a ∈ acc, ∀ b ∈ l, R a b) → l.Pairwise R →
      (l.foldl (fun acc x => insertStable bef x acc) acc).Pairwise (QRel bef R) := by
  intro l
  induction l with
  | nil => intro acc h _ _; simpa using h
  | cons x xs ih =>
    intro acc hacc hcross hpl
    rw [List.pairwise_cons] at hpl
    obtain ⟨hx, hxs⟩ := hpl
    simp only [List.foldl_cons]
    refine ih _ (pairwise_insertStable tot btrans hacc
      (fun a ha => hcross a ha x (List.mem_cons_self _ _))) ?_ hxs
    intro a ha b hb
    rcases mem_insertStable.mp ha with rfl | ha2
    · exact hx b hb
    · exact hcross a ha2 b (List.mem_cons_of_mem _ hb)

theorem pairwise_stableSortBy {bef : α → α → Bool} {R : α → α → Prop}
    (tot : ∀ a b, bef a b = true ∨ bef b a = true)
    (btrans : ∀ a b c, bef a b = true → bef b c = true → bef a c = true)
    {l : List α} (hl : l.Pairwise R) :
    (stableSortBy bef l).Pairwise (QRel bef R) :=
  pairwise_foldl_insertStable tot btrans l [] (by simp) (by simp) hl

theorem insertStable_append_of_all {bef : α → α → Bool} {x : α} :
    ∀ {acc : List α}, (∀ y ∈ acc, bef y x = true) →
      insertStable bef x acc = acc ++ [x] := by
  intro acc
  induction acc with
  | nil => intro _; rfl
  | cons y ys ih =>
    intro h
    simp only [insertStable, h y (List.mem_cons_self _ _), if_true, List.cons_append,
      List.cons.injEq, true_and]
    exact ih (fun z hz => h z (List.mem_cons_of_mem _ hz))

theorem foldl_insertStable_app {bef : α → α → Bool} :
    ∀ (l acc : List α), l.Pairwise (fun a b => bef a b = true) →
      (∀ y ∈ acc, ∀ x ∈ l, bef y x = true) →
      l.foldl (fun acc x => insertStable bef x acc) acc = acc ++ l := by
  intro l
  induction l with
  | nil => intro acc _ _; simp
  | cons x xs ih =>
    intro acc hp hcross
    rw [List.pairwise_cons] at hp
    obtain ⟨hx, hxs⟩ := hp
    simp only [List.foldl_cons]
    rw [insertStable_append_of_all (fun y hy => hcross y hy x (List.mem_cons_self _ _))]
    rw [ih (acc ++ [x]) hxs ?_]
    · simp
    intro y hy b hb
    rcases List.mem_append.mp hy with hy2 | hy2
    · exact hcross y hy2 b (List.mem_cons_of_mem _ hb)
    · rcases List.mem_singleton.mp hy2 with rfl
      exact hx b hb

theorem stableSortBy_of_sorted {bef : α → α → Bool} {l : List α}
    (hp : l.Pairwise (fun a b => bef a b = true)) :
    stableSortBy bef l = l := by
  simpa [stableSortBy] using foldl_insertStable_app l [] hp (by simp)

theorem foldl_insertStable_rev {bef : α → α → Bool} :
    ∀ (l acc : List α), l.Pairwise (fun a b => bef a b = false) →
      (∀ y ∈ acc, ∀ x ∈ l, bef y x = false) →
      l.foldl (fun acc x => insertStable bef x acc) acc = l.reverse ++ acc := by
  intro l
  induction l with
  | nil => intro acc _ _; simp
  | cons x xs ih =>
    intro acc hp hcross
    rw [List.pairwise_cons] at hp
    obtain ⟨hx, hxs⟩ := hp
    simp only [List.foldl_cons]
    have hins : insertStable bef x acc = x :: acc := by
      cases acc with
      | nil => rfl
      | cons y ys =>
        simp [insertStable, hcross y (List.mem_cons_self _ _) x (List.mem_cons_self _ _)]
    rw [hins, ih (x :: acc) hxs ?_]
    · simp
    intro y hy b hb
    rcases List.mem_cons.mp hy with rfl | hy2
    · exact hx b hb
    · exact hcross y hy2 b (List.mem_cons_of_mem _ hb)

theorem stableSortBy_of_strictDesc {bef : α → α → Bool} {l : List α}
    (hp : l.Pairwise (fun a b => bef a b = false)) :
    stableSortBy bef l = l.reverse := by
  simpa [stableSortBy] using foldl_insertStable_rev l [] hp (by simp)

/-! ## Claim C8: determinism and ordering of retrieval -/

theorem storeDocuments_rank_pairwise :
    storeDocuments.Pairwise (fun d1 d2 => corpusRank d1.id < corpusRank d2.id) := by
  decide

theorem scoredDocs_pairwise (q : String) :
    (scoredDocs q).Pairwise
      (fun a b => corpusRank a.doc.id < corpusRank b.doc.id) := by
  unfold scoredDocs
  exact (List.pairwise_map).mpr
    (storeDocuments_rank_pairwise.imp (fun h => h))

/-- Claim C8: retrieval is deterministic — the query operation is a
pure function of the query and topN (two invocations are equal) — and
the returned ranking excludes zero-score rules, is sorted descending
by score with ties in corpus order, and is truncated to topN. -/
theorem C8_retrieval_deterministic (q : String) (n : Nat) :
    storeQuery [q] n = storeQuery [q] n ∧
    (topResults q n).length ≤ n ∧
    ((topResults q n).all (fun item => decide (0 < item.score))) = true ∧
    (topResults q n).Pairwise
      (fun a b => b.score ≤ a.score ∧
        (a.score ≤ b.score → corpusRank a.doc.id < corpusRank b.doc.id)) := by
  refine ⟨rfl, List.length_take_le n _, ?_, ?_⟩
  · rw [List.all_eq_true]
    intro x hx
    have hx2 := List.mem_of_mem_take hx
    have hx3 := mem_stableSortBy.mp hx2
    simpa using (List.mem_filter.mp hx3).2
  · have tot : ∀ a b : ScoredDoc,
        (decide (b.score ≤ a.score)) = true ∨ (decide (a.score ≤ b.score)) = true := by
      intro a b
      rcases Nat.le_total b.score a.score with h | h
      · exact Or.inl (decide_eq_true h)
      · exact Or.inr (decide_eq_true h)
    have btrans : ∀ a b c : ScoredDoc,
        decide (b.score ≤ a.score) = true → decide (c.score ≤ b.score) = true →
        decide (c.score ≤ a.score) = true := by
      intro a b c h1 h2
      exact decide_eq_true (Nat.le_trans (of_decide_eq_true h2) (of_decide_eq_true h1))
    have base := (scoredDocs_pairwise q).filter (fun item => decide (0 < item.score))
    have hs := pairwise_stableSortBy tot btrans base
    have ht := List.Pairwise.sublist (List.take_sublist n _) hs
    exact ht.imp
      (fun h => ⟨of_decide_eq_true h.1, fun hle => h.2 (decide_eq_true hle)⟩)

/-! ## Claims C4 and C5: the checklist evaluator -/

/-- Claim C4 (code behaviour at the failing inputs): a company profile
with a valid UEI but no NAICS_codes field produces exactly one item
(R1) — the R2 item the claim and the compliance test of the repository itself
require for a missing optional field is omitted — and a past
performance document without contract_value produces an empty
checklist instead of a non_compliant R3 item. -/
theorem C4_code_behavior :
    ((generateChecklist [("UEI", .str "A1B2C3D4E5F6")] "company_profile" []).map
        (fun i => i.ruleId) = ["R1"]) ∧
    generateChecklist [] "past_performance" [] = [] ∧
    generateChecklist [] "company_profile" [] =
      [{ requirement := "Valid UEI Required", status := "non_compliant",
         evidence := "UEI not found in document", ruleId := "R1",
         severity := "critical" }] := by
  exact ⟨by decide, by decide, by decide⟩

/-- Claim C5 counterexample: the R3 item carries severity "high"
while the static corpus entry R3 has severity "critical" (similarly R4
carries "medium" against the corpus "high"), so items do not inherit
the corpus severity. -/
theorem C5_counterexample :
    ((generateChecklist
        [("contract_number", .str "ABC123"), ("contract_value", .num 50000)]
        "past_performance"
        [{ id := "R3", content := "Contract value threshold content",
           metadata := { title := "", category := "", severity := "critical" } }]).map
      (fun i => (i.ruleId, i.severity)) = [("R3", "high")]) ∧
    (GSA_RULES.map (fun r => (r.id, r.severity)) =
      [("R1", "critical"), ("R2", "high"), ("R3", "critical"),
       ("R4", "high"), ("R5", "critical")]) := by
  exact ⟨by decide, by decide⟩

/-- Claim C5 amended: the severity of every produced item is the constant
hardcoded for its check (R1 critical, R2 high, R3 high, R4 medium),
and the checklist is entirely independent of the retrievedRules
argument. -/
theorem C5_amended (fields : List (String × JValue)) (documentType : String)
    (rules rules' : List RetrievedRule) :
    generateChecklist fields documentType rules =
      generateChecklist fields documentType rules' ∧
    ((generateChecklist fields documentType rules).all
        (fun i => i.severity == checkSeverity i.ruleId)) = true := by
  refine ⟨rfl, ?_⟩
  rw [List.all_eq_true]
  intro i hi
  unfold generateChecklist at hi
  simp only [List.mem_append] at hi
  rcases hi with ((h | h) | h) | h <;>
    · repeat' split at h
      all_goals
        first
        | exact absurd h (List.not_mem_nil _)
        | (rw [List.mem_singleton] at h; subst h; simp [checkSeverity])

/-! ## Claims C6 and C7: the pipeline state machine -/

/-- Claim C6 counterexample: a run whose classification succeeds with
high confidence but whose rule-retrieval step throws (the vector store
was never initialized).  The error is forwarded to the HTTP error
middleware, but the analysis record is left in status "processing"
with no error message recorded — it never becomes "failed" — while the
classification results remain attached. -/
theorem C6_counterexample :
    ((analyzeHandler
        { classify := .ok ⟨some "company_profile", some ⟨9, 10⟩, some "clear profile"⟩,
          extract := .error (), storeReady := false,
          brief := .ok "b", email := .ok "e" }).1.status = "processing") ∧
    ((analyzeHandler
        { classify := .ok ⟨some "company_profile", some ⟨9, 10⟩, some "clear profile"⟩,
          extract := .error (), storeReady := false,
          brief := .ok "b", email := .ok "e" }).1.error_message = none) ∧
    ((analyzeHandler
        { classify := .ok ⟨some "company_profile", some ⟨9, 10⟩, some "clear profile"⟩,
          extract := .error (), storeReady := false,
          brief := .ok "b", email := .ok "e" }).1.document_classification =
        some "company_profile") ∧
    ((analyzeHandler
        { classify := .ok ⟨some "company_profile", some ⟨9, 10⟩, some "clear profile"⟩,
          extract := .error (), storeReady := false,
          brief := .ok "b", email := .ok "e" }).2 =
        .failure "Vector store not initialized") := by
  refine ⟨by decide, by decide, by decide, by decide⟩

/-- Claim C6 amended: when rule retrieval (the fallible step of the
pipeline body — extraction and prose generation swallow their own
errors) throws in a non-abstaining run, the error is forwarded to the
caller, and the analysis record keeps status "processing" with no
error message recorded; the classification already computed remains
attached and no checklist is stored. -/
theorem C6_amended (o : AnalyzeOracle) (hstore : o.storeReady = false)
    (habst : (classifyDocument o.classify).shouldAbstain = false) :
    (analyzeHandler o).1.status = "processing" ∧
    (analyzeHandler o).1.error_message = none ∧
    (analyzeHandler o).1.document_classification =
      some (classifyDocument o.classify).documentType ∧
    (analyzeHandler o).1.classification_confidence =
      some (classifyDocument o.classify).confidence ∧
    (analyzeHandler o).1.checklist_items = none ∧
    (analyzeHandler o).2 = .failure "Vector store not initialized" := by
  unfold analyzeHandler
  simp only [habst, Bool.false_eq_true, if_false, queryRules, hstore, Bool.not_false,
    if_true, initialAnalysisRecord]
  simp

theorem C6_amended_witness :
    c6WitnessOracle.storeReady = false ∧
    (classifyDocument c6WitnessOracle.classify).shouldAbstain = false ∧
    (analyzeHandler c6WitnessOracle).1.status = "processing" ∧
    (analyzeHandler c6WitnessOracle).1.error_message = none := by
  refine ⟨by decide, by decide, ?_, ?_⟩
  · exact (C6_amended c6WitnessOracle (by decide) (by decide)).1
  · exact (C6_amended c6WitnessOracle (by decide) (by decide)).2.1

/-- Claim C7 (code behaviour at the failing input): when the
classifier LLM answers with a JSON object that has no confidence
field, the recorded classification confidence is 0 — below the 0.8
threshold — yet shouldAbstain is computed as rawConfidence < threshold,
which is false for an undefined rawConfidence, so the pipeline does
not stop: it runs to status "completed" and produces a checklist. -/
theorem C7_code_behavior :
    ((analyzeHandler
        { classify := .ok ⟨some "company_profile", none, some "looks like a profile"⟩,
          extract := .error (), storeReady := true,
          brief := .ok "b", email := .ok "e" }).1.classification_confidence =
        some 0) ∧
    ((0 : JsRat) < CONFIDENCE_THRESHOLD) ∧
    ((analyzeHandler
        { classify := .ok ⟨some "company_profile", none, some "looks like a profile"⟩,
          extract := .error (), storeReady := true,
          brief := .ok "b", email := .ok "e" }).1.status = "completed") ∧
    ((analyzeHandler
        { classify := .ok ⟨some "company_profile", none, some "looks like a profile"⟩,
          extract := .error (), storeReady := true,
          brief := .ok "b", email := .ok "e" }).1.checklist_items.map
        (fun l => l.map (fun i => i.ruleId)) = some ["R1"]) := by
  refine ⟨by decide, by decide, by decide, ?_⟩
  decide

/-! ## Claim C9: containsPII is not a pure predicate -/

/-- Claim C9 (code behaviour at the failing input): containsPII uses
.test on the module-global /g regexes, whose lastIndex persists
between calls.  The first call on "a@b.co" matches the email pattern
(leaving its lastIndex at 6); the second call on the identical string
resumes the email scan at position 6, finds nothing, resets, and —
with no phone or SSN match either — returns false. -/
theorem C9_code_behavior :
    (containsPII initRegexState "a@b.co").1 = true ∧
    (containsPII (containsPII initRegexState "a@b.co").2 "a@b.co").1 = false ∧
    (containsPII initRegexState "a@b.co").2 =
      { emailLast := 6, phoneLast := 0, ssnLast := 0 } := by
  refine ⟨by decide, by decide, by decide⟩

/-! ## Claims C1 and C2: structure of the returned match list -/

theorem pairwise_true : ∀ (l : List α), l.Pairwise (fun _ _ => True) := by
  intro l
  induction l with
  | nil => exact List.Pairwise.nil
  | cons x xs ih => exact List.Pairwise.cons (fun _ _ => trivial) ih

theorem mem_pattMatches {tp : PIIType × Reg} {text : List Char} {m : RedactionMatch}
    (h : m ∈ pattMatches tp text) :
    m.type = tp.1 ∧ m.hash = hashValue m.value := by
  unfold pattMatches at h
  rcases List.mem_map.mp h with ⟨raw, _, rfl⟩
  exact ⟨rfl, rfl⟩

theorem foldl_applyOne_mem {label : List Char} {adj : Int} :
    ∀ (ms : List RedactionMatch) (acc : List Char × List RedactionMatch)
      (m : RedactionMatch),
      m ∈ (ms.foldl (applyOne label adj) acc).2 →
      m ∈ acc.2 ∨ ∃ m0 ∈ ms,
        m = { m0 with start := m0.start + adj,
                      endPos := m0.start + adj + label.length } := by
  intro ms
  induction ms with
  | nil => intro acc m h; exact Or.inl h
  | cons x xs ih =>
    intro acc m h
    simp only [List.foldl_cons] at h
    rcases ih _ m h with h2 | h2
    · unfold applyOne at h2
      rcases List.mem_append.mp h2 with h3 | h3
      · exact Or.inl h3
      · rw [List.mem_singleton] at h3
        exact Or.inr ⟨x, (List.mem_cons_self _ _), h3⟩
    · rcases h2 with ⟨m0, hm0, he⟩
      exact Or.inr ⟨m0, List.mem_cons_of_mem _ hm0, he⟩

theorem redactStep_mem {text : List Char}
    {st : List Char × List RedactionMatch × Int} {tp : PIIType × Reg}
    {m : RedactionMatch} (h : m ∈ (redactStep text st tp).2.1) :
    m ∈ st.2.1 ∨ ∃ m0 ∈ pattMatches tp text,
      m = { m0 with start := m0.start + st.2.2,
                    endPos := m0.start + st.2.2 +
                      ((REDACTION_LABELS tp.1).toList).length } := by
  unfold redactStep at h
  simp only [] at h
  rcases List.mem_append.mp h with h1 | h2
  · exact Or.inl h1
  · rcases foldl_applyOne_mem _ _ _ h2 with h3 | h3
    · exact absurd h3 (List.not_mem_nil _)
    · rcases h3 with ⟨m0, hm0, he⟩
      exact Or.inr ⟨m0, mem_stableSortBy.mp hm0, he⟩

theorem redact_foldl_inv :
    ∀ (tps : List (PIIType × Reg)) (st : List Char × List RedactionMatch × Int)
      (text : List Char),
      (∀ m ∈ st.2.1, MatchInv m) →
      ∀ m ∈ (tps.foldl (redactStep text) st).2.1, MatchInv m := by
  intro tps
  induction tps with
  | nil => intro st text h; exact h
  | cons tp tps ih =>
    intro st text h
    simp only [List.foldl_cons]
    apply ih
    intro m hm
    rcases redactStep_mem hm with h1 | ⟨m0, hm0, he⟩
    · exact h m h1
    · obtain ⟨hty, hhash⟩ := mem_pattMatches hm0
      subst he
      refine ⟨hhash, ?_⟩
      simp only [hty]

theorem redact_matches_inv (t : String) :
    ∀ m ∈ (redactPII t).matches', MatchInv m := by
  intro m hm
  have hm2 := mem_stableSortBy.mp hm
  exact redact_foldl_inv PII_PATTERNS _ t.toList (by simp) m hm2

/-- Claim C1 counterexample: on "a@b.co!" the single returned match
has value "a@b.co" but offsets start = 0, end = 16 (the placeholder
length), so original_text[start:end] is "a@b.co!" — not the matched
literal. -/
theorem C1_counterexample :
    ((redactPII "a@b.co!").matches'.map (fun m => (m.value, m.start, m.endPos)) =
      [("a@b.co", 0, 16)]) ∧
    strSlice "a@b.co!" 0 16 = "a@b.co!" ∧
    strSlice "a@b.co!" 0 16 ≠ "a@b.co" := by
  refine ⟨by decide, by decide, by decide⟩

/-- Claim C1 amended: the returned list is sorted ascending by its
start field, but the offsets are post-replacement values: start is the
original offset shifted by the cumulative length change of the
previously processed categories, and end is always start plus the
placeholder-label length of the category of the match, so the offsets do
not in general delimit the literal in the original text. -/
theorem C1_amended (t : String) :
    ((redactPII t).matches'.all
        (fun m => m.endPos == m.start + ((REDACTION_LABELS m.type).toList.length : Int)))
      = true ∧
    (redactPII t).matches'.Pairwise (fun a b => a.start ≤ b.start) := by
  constructor
  · rw [List.all_eq_true]
    intro m hm
    have h2 := (redact_matches_inv t m hm).2
    simp [h2]
  · have tot : ∀ a b : RedactionMatch,
        befAscStart a b = true ∨ befAscStart b a = true := by
      intro a b
      unfold befAscStart
      rcases Int.le_total a.start b.start with h | h
      · exact Or.inl (decide_eq_true h)
      · exact Or.inr (decide_eq_true h)
    have btrans : ∀ a b c : RedactionMatch,
        befAscStart a b = true → befAscStart b c = true →
        befAscStart a c = true := by
      intro a b c h1 h2
      unfold befAscStart at *
      exact decide_eq_true (Int.le_trans (of_decide_eq_true h1) (of_decide_eq_true h2))
    have base := pairwise_true
      ((PII_PATTERNS.foldl (redactStep t.toList) (t.toList, [], 0)).2.1)
    exact (pairwise_stableSortBy tot btrans base).imp (fun h => of_decide_eq_true h.1)

/-- Claim C2 counterexample: with a 28-character email before a phone
number, the phone replacement is spliced at stale offsets, so the
phone literal "555-123-4567" survives verbatim in the redacted text —
and both literals are returned in the matches' value fields. -/
theorem C2_counterexample :
    ((redactPII "aaaaaaaaaaaaaaaaaaaaaa@bb.co 555-123-4567").matches'.map
        (fun m => m.value) = ["aaaaaaaaaaaaaaaaaaaaaa@bb.co", "555-123-4567"]) ∧
    (containsSub "555-123-4567".toList
        (redactPII "aaaaaaaaaaaaaaaaaaaaaa@bb.co 555-123-4567").redactedText.toList
      = true) := by
  refine ⟨by decide, by decide⟩

/-- Claim C2 amended: the literal is not discarded from the outputs —
each returned match carries it verbatim in its value field — but every
hash field of each match is the one-way digest of that value field. -/
theorem C2_amended (t : String) :
    ((redactPII t).matches'.all (fun m => m.hash == hashValue m.value)) = true := by
  rw [List.all_eq_true]
  intro m hm
  have h1 := (redact_matches_inv t m hm).1
  simp [h1]

/-! ## Claim C3: the redacted text against the single-pass rebuild
of the spec -/

theorem foldl_applyOne_fst {ty : PIIType} {adj : Int} :
    ∀ (ms : List RedactionMatch) (txt : List Char) (pl : List RedactionMatch),
      (∀ m ∈ ms, m.type = ty) →
      (ms.foldl (applyOne (REDACTION_LABELS ty).toList adj) (txt, pl)).1 =
        ms.foldl spliceText txt := by
  intro ms
  induction ms with
  | nil => intro txt pl _; rfl
  | cons x xs ih =>
    intro txt pl hty
    simp only [List.foldl_cons]
    have hx := hty x (List.mem_cons_self _ _)
    have : applyOne (REDACTION_LABELS ty).toList adj (txt, pl) x =
        (spliceText txt x,
         pl ++ [{ x with start := x.start + adj,
                         endPos := x.start + adj +
                           ((REDACTION_LABELS ty).toList).length }]) := by
      unfold applyOne spliceText
      rw [hx]
    rw [this]
    exact ih _ _ (fun m hm => hty m (List.mem_cons_of_mem _ hm))

theorem redactStep_fst_of_empty {text : List Char}
    {st : List Char × List RedactionMatch × Int} {tp : PIIType × Reg}
    (h : pattMatches tp text = []) : (redactStep text st tp).1 = st.1 := by
  unfold redactStep
  rw [h]
  rfl

theorem adjOK_pairwise :
    ∀ (ms : List RedactionMatch), (∀ m ∈ ms, m.start < m.endPos) →
      adjOK ms = true → ms.Pairwise (fun a b => a.endPos ≤ b.start) := by
  intro ms
  induction ms with
  | nil => intro _ _; exact List.Pairwise.nil
  | cons a rest ih =>
    intro hb hadj
    cases rest with
    | nil => simp
    | cons b r2 =>
      rw [show adjOK (a :: b :: r2) =
            (decide (a.endPos ≤ b.start) && adjOK (b :: r2)) from rfl,
          Bool.and_eq_true] at hadj
      obtain ⟨h1, h2⟩ := hadj
      have hab : a.endPos ≤ b.start := of_decide_eq_true h1
      have hrest := ih (fun m hm => hb m (List.mem_cons_of_mem _ hm)) h2
      refine List.Pairwise.cons ?_ hrest
      intro z hz
      rcases List.mem_cons.mp hz with rfl | hz2
      · exact hab
      · have h3 := (List.pairwise_cons.mp hrest).1 z hz2
        have h4 := hb b (List.mem_cons_of_mem _ (List.mem_cons_self _ _))
        omega

theorem take_rebuildFrom :
    ∀ (ms : List RedactionMatch) (s : List Char) (st : Nat), st ≤ s.length →
      (∀ m2, ms.head? = some m2 → st ≤ m2.start.toNat) →
      (rebuildFrom s 0 ms).take st = s.take st := by
  intro ms s st hlen hhead
  cases ms with
  | nil => simp [rebuildFrom]
  | cons m2 rest =>
    have hst := hhead m2 rfl
    simp only [rebuildFrom]
    rw [List.drop_zero, Nat.sub_zero, List.take_append_eq_append_take]
    have h1 : st - (s.take m2.start.toNat).length = 0 := by
      simp only [List.length_take]
      omega
    rw [h1, List.take_zero, List.append_nil, List.take_take]
    congr 1
    omega

theorem drop_rebuildFrom :
    ∀ (ms : List RedactionMatch) (s : List Char) (en : Nat), en ≤ s.length →
      (∀ m2, ms.head? = some m2 → en ≤ m2.start.toNat) →
      (rebuildFrom s 0 ms).drop en = rebuildFrom s en ms := by
  intro ms s en hlen hhead
  cases ms with
  | nil => simp [rebuildFrom]
  | cons m2 rest =>
    have hst := hhead m2 rfl
    simp only [rebuildFrom]
    rw [List.drop_zero, Nat.sub_zero, List.drop_append_eq_append_drop]
    have h1 : en - (s.take m2.start.toNat).length = 0 := by
      simp only [List.length_take]
      omega
    rw [h1, List.drop_zero, List.drop_take]

theorem spliceRev_eq_rebuild :
    ∀ (ms : List RedactionMatch) (s : List Char),
      (∀ m ∈ ms, 0 ≤ m.start ∧ m.start < m.endPos ∧ m.endPos ≤ (s.length : Int)) →
      ms.Pairwise (fun a b => a.endPos ≤ b.start) →
      (ms.reverse).foldl spliceText s = rebuildFrom s 0 ms := by
  intro ms
  induction ms with
  | nil => intro s _ _; simp [rebuildFrom]
  | cons m rest ih =>
    intro s hb hp
    rw [List.reverse_cons, List.foldl_append]
    rw [List.pairwise_cons] at hp
    obtain ⟨hm_rest, hp_rest⟩ := hp
    have hbm := hb m (List.mem_cons_self _ _)
    rw [ih s (fun x hx => hb x (List.mem_cons_of_mem _ hx)) hp_rest]
    have hhead : ∀ m2, rest.head? = some m2 → m.endPos.toNat ≤ m2.start.toNat := by
      intro m2 h2
      cases rest with
      | nil => simp at h2
      | cons b r2 =>
        simp only [List.head?_cons, Option.some.injEq] at h2
        rcases h2 with rfl
        have := hm_rest b (List.mem_cons_self _ _)
        omega
    have hlen : m.endPos.toNat ≤ s.length := by omega
    have htake := take_rebuildFrom rest s m.start.toNat (by omega)
      (fun m2 h2 => Nat.le_trans (by omega) (hhead m2 h2))
    have hdrop := drop_rebuildFrom rest s m.endPos.toNat hlen hhead
    show spliceText (rebuildFrom s 0 rest) m = rebuildFrom s 0 (m :: rest)
    unfold spliceText
    rw [htake, hdrop]
    simp only [rebuildFrom]
    rw [List.drop_zero, Nat.sub_zero, List.append_assoc]

/-- Claim C3 counterexample: on "a@b.co 555-123-4567" the output of
the code is corrupted — the phone replacement is spliced at the
original offsets of the phone into the already email-redacted string —
while the single-pass rebuild of the spec yields the two placeholder
tokens. -/
theorem C3_counterexample :
    (redactPII "a@b.co 555-123-4567").redactedText =
      "[REDACT[REDACTED_PHONE]5-123-4567" ∧
    rebuildSpec "a@b.co 555-123-4567" = "[REDACTED_EMAIL] [REDACTED_PHONE]" ∧
    (redactPII "a@b.co 555-123-4567").redactedText ≠
      rebuildSpec "a@b.co 555-123-4567" := by
  refine ⟨by decide, by decide, by decide⟩

/-- Claim C3 amended: the splice-rebuild equality holds whenever only
one pattern category yields matches (stated here for email-only texts,
the first category processed) and those matched spans form a disjoint
in-bounds ascending chain; with matches in several categories the
equality can fail, because later categories are spliced at original
offsets into the already-modified string. -/
theorem C3_amended (t : String)
    (hp : pattMatches (PIIType.phone, phoneReg) t.toList = [])
    (hs : pattMatches (PIIType.ssn, ssnReg) t.toList = [])
    (hc : chainOKb t.toList.length
        (pattMatches (PIIType.email, emailReg) t.toList) = true) :
    (redactPII t).redactedText = rebuildSpec t := by
  rw [chainOKb, Bool.and_eq_true] at hc
  obtain ⟨hbnd, hadj⟩ := hc
  rw [boundsOK, List.all_eq_true] at hbnd
  have hb : ∀ m ∈ pattMatches (PIIType.email, emailReg) t.toList,
      0 ≤ m.start ∧ m.start < m.endPos ∧ m.endPos ≤ (t.toList.length : Int) := by
    intro m hm
    have := hbnd m hm
    simp only [Bool.and_eq_true, decide_eq_true_eq] at this
    exact ⟨this.1.1, this.1.2, this.2⟩
  have hpw := adjOK_pairwise _ (fun m hm => (hb m hm).2.1) hadj
  have hstrict : (pattMatches (PIIType.email, emailReg) t.toList).Pairwise
      (fun a b => a.start < b.start) := by
    refine hpw.imp_of_mem ?_
    intro a b ha _ hr
    have h1 := (hb a ha).2.1
    omega
  have hdesc : (pattMatches (PIIType.email, emailReg) t.toList).Pairwise
      (fun a b => befDescStart a b = false) :=
    hstrict.imp (fun h => decide_eq_false (by omega))
  have hsortdesc := stableSortBy_of_strictDesc hdesc
  have hasc : (pattMatches (PIIType.email, emailReg) t.toList).Pairwise
      (fun a b => befAscStart a b = true) :=
    hstrict.imp (fun h => decide_eq_true (by omega))
  have hsortasc := stableSortBy_of_sorted hasc
  have htyE : ∀ m ∈ (pattMatches (PIIType.email, emailReg) t.toList).reverse,
      m.type = (PIIType.email, emailReg).1 := by
    intro m hm
    exact (mem_pattMatches (List.mem_reverse.mp hm)).1
  unfold redactPII
  simp only [PII_PATTERNS, List.foldl_cons, List.foldl_nil]
  rw [redactStep_fst_of_empty hs, redactStep_fst_of_empty hp]
  unfold redactStep
  simp only []
  rw [hsortdesc, foldl_applyOne_fst _ _ _ htyE, spliceRev_eq_rebuild _ _ hb hpw]
  unfold rebuildSpec rawMatchesAll
  simp only [PII_PATTERNS, List.foldl_cons, List.foldl_nil, List.nil_append, hp, hs,
    List.append_nil]
  rw [hsortasc]

theorem C3_amended_witness :
    (pattMatches (PIIType.phone, phoneReg) "see a@b.co now".toList = []) ∧
    (pattMatches (PIIType.ssn, ssnReg) "see a@b.co now".toList = []) ∧
    (chainOKb "see a@b.co now".toList.length
        (pattMatches (PIIType.email, emailReg) "see a@b.co now".toList) = true) ∧
    (redactPII "see a@b.co now").redactedText = rebuildSpec "see a@b.co now" := by
  refine ⟨by decide, by decide, by decide,
    C3_amended _ (by decide) (by decide) (by decide)⟩
